import Mathlib

/-!
Verification of the LLVM lowering layer of llv8 (src/llvm/llvm-chunk.cc).

The definitions below are a shallow embedding of the functions of
LLVMChunkBuilder / LLVMChunk that the checked claims are about:

* the tagged-integer (Smi) representation model:
  SmiToInteger32 / Integer32ToSmi and the x64 shift constant,
* TokenToPredicate (relational token to LLVM comparison predicate),
* the environment / join-state propagation performed by DoBasicBlock,
* the function-signature construction performed by Build,
* the argument-position computation performed by DoParameter,
* the representation-change matrix of DoChange,
* the instruction dispatcher VisitInstruction with the memoizing
  value-resolution function Use and the handlers DoConstant, DoAdd
  (inlined in the dispatcher arm), DoSub and DoMul,
* the abort propagation of Build / LLVMChunk::NewChunk.

Machine values are modelled as mathematical integers with explicit
reduction modulo 2 ^ 64 where the 64-bit wrap matters; fatal paths
(UNIMPLEMENTED, UNREACHABLE, CHECK, DCHECK) are modelled as error
results.
-/

namespace LLV8

/-! Representation model.  Representation::Kind of the values handled by
the lowering: Tagged, Smi, Integer32, Double, External (the kinds which
occur in llvm-chunk.cc). -/

inductive Representation where
  | tagged
  | smi
  | integer32
  | double
  | external
deriving DecidableEq

/-- Smi shift amount on x64 with 32-bit Smi values:
kSmiShift = kSmiTagSize + kSmiShiftSize = 1 + 31 = 32. -/
def kSmiShift : Nat := 32

/-- LLVMChunkBuilder::Integer32ToSmi: CreateShl(Use(value), kSmiShift) on an
i64 value; the 64-bit left shift is value * 2 ^ kSmiShift reduced mod 2 ^ 64. -/
def Integer32ToSmi (v : Nat) : Nat :=
  (v * 2 ^ kSmiShift) % 2 ^ 64

/-- LLVMChunkBuilder::SmiToInteger32: if SmiValuesAre32Bits() it is
CreateLShr(Use(value), kSmiShift) (logical right shift of an i64, i.e.
division by 2 ^ kSmiShift); the SmiValuesAre31Bits() variant is
UNIMPLEMENTED, modelled as none. -/
def SmiToInteger32 (smiValuesAre32Bits : Bool) (v : Nat) : Option Nat :=
  if smiValuesAre32Bits then some (v / 2 ^ kSmiShift) else none

/-! Comparison-predicate classification (LLVMChunkBuilder::TokenToPredicate). -/

/-- The relational tokens that reach TokenToPredicate plus the two tokens the
switch lists as unreachable. -/
inductive Token where
  | EQ
  | EQ_STRICT
  | NE
  | NE_STRICT
  | LT
  | GT
  | LTE
  | GTE
  | IN
  | INSTANCEOF
deriving DecidableEq

/-- llvm::CmpInst::Predicate values used by TokenToPredicate (plus the
initial bad-predicate value, which the function never returns on a
non-fatal path). -/
inductive Predicate where
  | BAD_FCMP_PREDICATE
  | ICMP_EQ
  | ICMP_NE
  | ICMP_ULT
  | ICMP_SLT
  | ICMP_UGT
  | ICMP_SGT
  | ICMP_ULE
  | ICMP_SLE
  | ICMP_UGE
  | ICMP_SGE
deriving DecidableEq

/-- LLVMChunkBuilder::TokenToPredicate.  The IN / INSTANCEOF / default arms hit
UNREACHABLE(), modelled as none. -/
def TokenToPredicate (op : Token) (is_unsigned : Bool) : Option Predicate :=
  match op with
  | .EQ => some .ICMP_EQ
  | .EQ_STRICT => some .ICMP_EQ
  | .NE => some .ICMP_NE
  | .NE_STRICT => some .ICMP_NE
  | .LT => some (if is_unsigned then .ICMP_ULT else .ICMP_SLT)
  | .GT => some (if is_unsigned then .ICMP_UGT else .ICMP_SGT)
  | .LTE => some (if is_unsigned then .ICMP_ULE else .ICMP_SLE)
  | .GTE => some (if is_unsigned then .ICMP_UGE else .ICMP_SGE)
  | .IN => none
  | .INSTANCEOF => none

/-- The six relational operators the claims quantify over. -/
def relationalTokens : List Token :=
  [Token.EQ, Token.NE, Token.LT, Token.GT, Token.LTE, Token.GTE]

/-! Function-signature construction (first half of LLVMChunkBuilder::Build).
Build computes num_parameters = info()->num_parameters() + 3 and builds a
FunctionType whose every parameter and whose return type is
llvm::Type::getInt64Ty. -/

inductive LLVMType where
  | int64
deriving DecidableEq

structure LLVMFunctionType where
  paramTypes : List LLVMType
  returnType : LLVMType
deriving DecidableEq

/-- The function type Build constructs: (declared parameter count + 3)
parameters, every parameter and the return type Int64. -/
def BuildFunctionType (numDeclaredParams : Nat) : LLVMFunctionType :=
  let num_parameters := numDeclaredParams + 3
  { paramTypes := List.replicate num_parameters LLVMType.int64
    returnType := LLVMType.int64 }

/-! Parameter binding (LLVMChunkBuilder::DoParameter).  The handler computes
the position of the native argument bound to declared parameter index by
walking the llvm argument iterator:

  index = -index;
  while (--index + num_parameters > 0) ++it;

with num_parameters = info()->num_parameters() + 3. -/

/-- The while loop of DoParameter: number of ++it steps performed starting
from the given (already negated) index. -/
def paramLoop (index num_parameters : Int) : Nat :=
  if index - 1 + num_parameters > 0 then
    paramLoop (index - 1) num_parameters + 1
  else
    0
termination_by (index + num_parameters).toNat
decreasing_by omega

/-- DoParameter: the 0-based position (from arg_begin) of the native argument
bound to declared parameter i, for a function with numDeclaredParams
declared parameters. -/
def DoParameterArgPosition (numDeclaredParams i : Nat) : Nat :=
  let num_parameters : Int := (numDeclaredParams : Int) + 3
  paramLoop (-(i : Int)) num_parameters

/-! Environment / join-state propagation (the head of
LLVMChunkBuilder::DoBasicBlock, before the instruction loop).

An HEnvironment is modelled as its ordered slot values (HValue ids)
together with a storage identity: HEnvironment::Copy() allocates a fresh
object, modelled by a fresh storageId, while SetValueAt mutates in place,
preserving the storageId.  Block environments are compared for storage
identity (pointer equality in the source) via storageId. -/

structure HEnvironment where
  storageId : Nat
  values : List Nat
deriving DecidableEq

/-- HEnvironment::Copy(): a fresh environment object with the same slots. -/
def HEnvironment.copy (e : HEnvironment) : HEnvironment :=
  { e with storageId := e.storageId + 1 }

/-- HEnvironment::SetValueAt: in-place slot update (same storage). -/
def HEnvironment.setValueAt (e : HEnvironment) (i v : Nat) : HEnvironment :=
  { e with values := e.values.set i v }

/-- Pointer equality of environment objects. -/
def sameStorage (a b : HEnvironment) : Bool :=
  a.storageId == b.storageId

/-- The data DoBasicBlock reads from a predecessor block: its final
environment, its outgoing argument count, and the block ids of the
successors of its end instruction (SecondSuccessor() may be NULL). -/
structure PredInfo where
  lastEnvironment : HEnvironment
  argumentCount : Int
  firstSuccessorId : Nat
  secondSuccessorId : Option Nat
deriving DecidableEq

/-- An HPhi as DoBasicBlock uses it: the value id the phi contributes and
merged_index() guarded by HasMergedIndex(). -/
structure HPhi where
  valId : Nat
  mergedIndex : Option Nat
deriving DecidableEq

/-- The single-predecessor arm of DoBasicBlock: the predecessor's final
environment is taken as is unless the predecessor's end has a second
successor and either successor's block id exceeds this block's id, in
which case the environment is Copy()-ed first; the outgoing argument
count is the predecessor's.  Returns (environment, argument_count_). -/
def singlePredecessorEnv (blockId : Nat) (pred : PredInfo) : HEnvironment × Int :=
  let last_environment := pred.lastEnvironment
  let last_environment :=
    match pred.secondSuccessorId with
    | none => last_environment
    | some secondId =>
      if pred.firstSuccessorId > blockId ∨ secondId > blockId then
        last_environment.copy
      else
        last_environment
  (last_environment, pred.argumentCount)

/-- The phi loop of the join arm of DoBasicBlock: for every phi with
HasMergedIndex(), SetValueAt(merged_index, phi). -/
def phiFold (phis : List HPhi) (e : HEnvironment) : HEnvironment :=
  phis.foldl
    (fun acc phi =>
      match phi.mergedIndex with
      | some mi => acc.setValueAt mi phi.valId
      | none => acc)
    e

/-- The deleted-phi loop of the join arm of DoBasicBlock: every deleted-phi
index below the environment's length is overwritten with the undefined
constant. -/
def deletedPhiFold (undefinedId : Nat) (deletedPhis : List Nat)
    (e : HEnvironment) : HEnvironment :=
  deletedPhis.foldl
    (fun acc d =>
      if d < acc.values.length then acc.setValueAt d undefinedId else acc)
    e

/-- The join (multiple-predecessor) arm of DoBasicBlock: the first
predecessor's final environment is used without copying, phi slots and
in-range deleted-phi slots are overwritten, and the outgoing argument count
is the first predecessor's.  Returns (environment, argument_count_). -/
def joinBlockEnv (undefinedId : Nat) (phis : List HPhi)
    (deletedPhis : List Nat) (pred : PredInfo) : HEnvironment × Int :=
  (deletedPhiFold undefinedId deletedPhis (phiFold phis pred.lastEnvironment),
   pred.argumentCount)

/-- The environment-propagation head of DoBasicBlock in full: start block,
single predecessor, or join, selected exactly as in the source; none when a
non-start block has no predecessor (the source would index an empty list). -/
def DoBasicBlockEnv (startEnvironment : HEnvironment) (undefinedId : Nat)
    (blockId : Nat) (isStartBlock : Bool) (predecessors : List PredInfo)
    (phis : List HPhi) (deletedPhis : List Nat) :
    Option (HEnvironment × Int) :=
  if isStartBlock then
    some (startEnvironment, 0)
  else
    match predecessors with
    | [] => none
    | [pred] => some (singlePredecessorEnv blockId pred)
    | pred :: _ :: _ => some (joinBlockEnv undefinedId phis deletedPhis pred)

/-! Abort propagation (LLVMChunkBuilder::Build, LLVMChunk::NewChunk and the
instruction loop of DoBasicBlock).

The per-opcode handlers and the UNIMPLEMENTED() / status machinery are
declared in llvm-chunk.h, which is not among the visible sources; a block's
instructions are therefore abstracted to the two bits the driver loop
reads: whether the instruction is EmitAtUses() (skipped by the loop) and
whether its handler is implemented. -/

inductive Status where
  | BUILDING
  | ABORTED
  | DONE
deriving DecidableEq

/-- An instruction as seen by the block iteration: EmitAtUses() instructions
are skipped; visiting an instruction whose handler is unimplemented aborts
the unit. -/
structure AInstr where
  emitAtUses : Bool
  handlerImplemented : Bool
deriving DecidableEq

/-- Modelled from the spec: `Unimplemented-opcode abort: fatal for the
compilation unit; the unit transitions to ABORTED`.  The UNIMPLEMENTED()
macro and the builder's Abort/is_aborted members are declared in headers
that are not among the visible sources; visiting an instruction whose
handler hits an unimplemented case moves the unit's status to ABORTED. -/
def visitOutcome (st : Status) (i : AInstr) : Status :=
  if i.handlerImplemented then st else Status.ABORTED

/-- The instruction loop of DoBasicBlock:
while (current != NULL && !is_aborted()) visit non-EmitAtUses instructions. -/
def doBlockInstructions (st : Status) (instrs : List AInstr) : Status :=
  match instrs with
  | [] => st
  | i :: rest =>
    if st = Status.ABORTED then st
    else doBlockInstructions (if i.emitAtUses then st else visitOutcome st i) rest

/-- The block loop of Build: DoBasicBlock per block in order, returning
immediately once is_aborted(); the result is the final status and the
number of blocks entered. -/
def buildBlocks (st : Status) (blocks : List (List AInstr)) : Status × Nat :=
  match blocks with
  | [] => (st, 0)
  | b :: rest =>
    let st' := doBlockInstructions st b
    if st' = Status.ABORTED then (st', 1)
    else
      let (stFinal, n) := buildBlocks st' rest
      (stFinal, n + 1)

/-- LLVMChunkBuilder::Build: status starts at BUILDING, the blocks are
iterated, NULL is returned if the unit aborted, otherwise the status
becomes DONE and the chunk is returned.  The result is (chunk-or-null,
final status, number of blocks entered). -/
def Build (blocks : List (List AInstr)) : Option Unit × Status × Nat :=
  let (st, n) := buildBlocks Status.BUILDING blocks
  if st = Status.ABORTED then (none, st, n)
  else (some (), Status.DONE, n)

/-- LLVMChunk::NewChunk: builder.Build(); if (chunk == NULL) return NULL. -/
def NewChunk (blocks : List (List AInstr)) : Option Unit :=
  match Build blocks with
  | (none, _, _) => none
  | (some c, _, _) => some c

/-- A block aborts the unit iff it contains a visited (non-EmitAtUses)
instruction with an unimplemented handler. -/
def blockAborts (b : List AInstr) : Bool :=
  b.any (fun i => !i.emitAtUses && !i.handlerImplemented)

/-! Representation change (LLVMChunkBuilder::DoChange).  The handler's
observable effect per (from, to) pair: which conversion it emits for the
operand value, or that it hits a fatal stub. -/

inductive ChangeAction where
  /-- set_llvm_value(Use(val)): the value is passed through unchanged. -/
  | useIdentity
  /-- set_llvm_value(SmiToInteger32(val)): tagged-to-native right shift. -/
  | smiToInt32
  /-- set_llvm_value(Integer32ToSmi(val)): native-to-tagged left shift. -/
  | int32ToSmi
  /-- UNIMPLEMENTED() is hit. -/
  | unimplementedStub
  /-- A DCHECK on the target representation fails (debug-fatal). -/
  | dcheckFail
  /-- No branch of the handler applies; the handler returns without
  setting a value (happens for from = External, which no branch tests). -/
  | noBranch
deriving DecidableEq

/-- LLVMChunkBuilder::DoChange, branch for branch.  valTypeIsSmi models
val->type().IsSmi(), valRepIsSmi models val->representation().IsSmi(),
canOverflow models instr->CheckFlag(HValue::kCanOverflow). -/
def DoChange (fromRep toRep : Representation)
    (valTypeIsSmi valRepIsSmi canOverflow : Bool) : ChangeAction :=
  -- if (from.IsSmi()) { if (to.IsTagged()) { set(Use(val)); return; }
  --                     from = Representation::Tagged(); }
  if fromRep = .smi ∧ toRep = .tagged then
    .useIdentity
  else
    let fromRep := if fromRep = .smi then Representation.tagged else fromRep
    if fromRep = .tagged then
      if toRep = .double then
        .unimplementedStub
      else if toRep = .smi then
        -- the !val->type().IsSmi() branch holds only commented-out
        -- check/bailout code; either way the value is passed through
        .useIdentity
      else
        -- DCHECK(to.IsInteger32())
        if toRep = .integer32 then
          if valTypeIsSmi ∨ valRepIsSmi then
            -- convert smi to int32, no smi check needed
            .smiToInt32
          else
            -- smi check and bailout still to be done; same conversion emitted
            .smiToInt32
        else
          .dcheckFail
    else if fromRep = .double then
      .unimplementedStub
    else if fromRep = .integer32 then
      if toRep = .tagged then
        if ¬canOverflow then .int32ToSmi else .unimplementedStub
      else if toRep = .smi then
        .unimplementedStub
      else
        -- DCHECK(to.IsDouble()); UNIMPLEMENTED()
        if toRep = .double then .unimplementedStub else .dcheckFail
    else
      .noBranch

/-! Instruction dispatcher and value-materialization cache
(LLVMChunkBuilder::VisitInstruction, LLVMChunkBuilder::Use and the
arithmetic/constant handlers).

The embedded instruction fragment is the one the claims exercise:
HConstant (DoConstant) and the binary arithmetic instructions HAdd, HSub,
HMul (DoAdd, DoSub, DoMul).  Every instruction carries the per-value state
the dispatcher reads: an id (object identity, keying the memoized
llvm_value), its representation, EmitAtUses(), and
CanReplaceWithDummyUses() (whose VisitInstruction branch is an
unimplemented stub).  None of the embedded instructions is a control
instruction with a statically known successor, so the Goto arm of
VisitInstruction is never taken on this fragment. -/

structure HInstrData where
  id : Nat
  rep : Representation
  emitAtUses : Bool
  canReplaceDummy : Bool
deriving DecidableEq

inductive HInstr where
  /-- HConstant: the integer payload and whether the tagged handle holds a
  Smi (read only by the tagged arm of DoConstant). -/
  | constant (d : HInstrData) (intVal : Int) (taggedIsSmi : Bool)
  | add (d : HInstrData) (left right : HInstr)
  | sub (d : HInstrData) (left right : HInstr)
  | mul (d : HInstrData) (left right : HInstr)
deriving DecidableEq

def HInstr.data : HInstr → HInstrData
  | .constant d _ _ => d
  | .add d _ _ => d
  | .sub d _ _ => d
  | .mul d _ _ => d

/-- An llvm::Value handle: either a constant produced by getInt64 or the
result of an emitted instruction (numbered by creation order). -/
inductive LVal where
  | imm (v : Int)
  | reg (n : Nat)
deriving DecidableEq

/-- An operation emitted through the IRBuilder. -/
inductive EOp where
  | addOp (a b : LVal)
  | subOp (a b : LVal)
  | mulOp (a b : LVal)
deriving DecidableEq

/-- Fatal conditions: UNIMPLEMENTED(), failed DCHECK, failed CHECK. -/
inductive Err where
  | unimplemented
  | dcheckFailed
  | checkFailed
deriving DecidableEq

/-- Builder state threaded through the dispatcher: the memoized llvm_value
of each instruction id (set_llvm_value prepends), the emitted operations,
the next fresh register number, and current_instruction_. -/
structure CState where
  memo : List (Nat × LVal)
  emitted : List EOp
  fresh : Nat
  currentInstruction : Option Nat
deriving DecidableEq

/-- Lookup of a memoized llvm_value by instruction id. -/
def memoLookup (m : List (Nat × LVal)) (i : Nat) : Option LVal :=
  match m with
  | [] => none
  | (j, v) :: rest => if j = i then some v else memoLookup rest i

/-- HValue::set_llvm_value. -/
def setLLVMValue (s : CState) (id : Nat) (v : LVal) : CState :=
  { s with memo := (id, v) :: s.memo }

/-- Emission of one operation through the IRBuilder, producing a fresh
instruction value. -/
def emitOp (s : CState) (op : EOp) : CState × LVal :=
  ({ s with emitted := s.emitted ++ [op], fresh := s.fresh + 1 },
   LVal.reg s.fresh)

/-- LLVMChunkBuilder::DoConstant: Smi representation emits
getInt64(int32_value << kSmiShift); Integer32 emits getInt64(int32_value);
Double and External are UNIMPLEMENTED; Tagged emits the reinterpreted Smi
pointer (the value shifted by kSmiShift) when the handle is a Smi and is
UNIMPLEMENTED otherwise. -/
def DoConstant (s : CState) (d : HInstrData) (intVal : Int)
    (taggedIsSmi : Bool) : Except Err CState :=
  match d.rep with
  | .smi => .ok (setLLVMValue s d.id (.imm (intVal * 2 ^ kSmiShift)))
  | .integer32 => .ok (setLLVMValue s d.id (.imm intVal))
  | .double => .error .unimplemented
  | .external => .error .unimplemented
  | .tagged =>
    if taggedIsSmi then
      .ok (setLLVMValue s d.id (.imm (intVal * 2 ^ kSmiShift)))
    else
      .error .unimplemented

/-- LLVMChunkBuilder::DoSub: representation guard, representation DCHECKs,
then CHECK(left->llvm_value()) / CHECK(right->llvm_value()) — the operand
values are read directly from the memo, not resolved through Use — then
CreateSub and set_llvm_value. -/
def DoSub (s : CState) (d : HInstrData) (left right : HInstr) :
    Except Err CState :=
  if d.rep = .integer32 ∨ d.rep = .smi then
    if left.data.rep = d.rep ∧ right.data.rep = d.rep then
      match memoLookup s.memo left.data.id with
      | none => .error .checkFailed
      | some lv =>
        match memoLookup s.memo right.data.id with
        | none => .error .checkFailed
        | some rv =>
          let (s', v) := emitOp s (.subOp lv rv)
          .ok (setLLVMValue s' d.id v)
    else
      .error .dcheckFailed
  else
    .error .unimplemented

/-- LLVMChunkBuilder::DoMul: same shape as DoSub (direct llvm_value reads
behind CHECKs), emitting CreateMul. -/
def DoMul (s : CState) (d : HInstrData) (left right : HInstr) :
    Except Err CState :=
  if d.rep = .integer32 ∨ d.rep = .smi then
    if left.data.rep = d.rep ∧ right.data.rep = d.rep then
      match memoLookup s.memo left.data.id with
      | none => .error .checkFailed
      | some lv =>
        match memoLookup s.memo right.data.id with
        | none => .error .checkFailed
        | some rv =>
          let (s', v) := emitOp s (.mulOp lv rv)
          .ok (setLLVMValue s' d.id v)
    else
      .error .dcheckFailed
  else
    .error .unimplemented

/-- The epilogue of VisitInstruction: current_instruction_ = old_current
(on the fatal paths the process never returns, so there is no state to
restore). -/
def restoreCurrent (old_current : Option Nat) :
    Except Err CState → Except Err CState
  | .error e => .error e
  | .ok s' => .ok { s' with currentInstruction := old_current }

mutual

/-- LLVMChunkBuilder::Use(HValue*): if the value is EmitAtUses() and has no
llvm_value yet, VisitInstruction is run on it; then DCHECK(llvm_value)
and the memoized value is returned. -/
def Use (s : CState) (v : HInstr) : Except Err (CState × LVal) :=
  if v.data.emitAtUses ∧ memoLookup s.memo v.data.id = none then
    match VisitInstruction s v with
    | .error e => .error e
    | .ok s' =>
      match memoLookup s'.memo v.data.id with
      | some lv => .ok (s', lv)
      | none => .error .dcheckFailed
  else
    match memoLookup s.memo v.data.id with
    | some lv => .ok (s, lv)
    | none => .error .dcheckFailed
termination_by (sizeOf v, 1)

/-- LLVMChunkBuilder::VisitInstruction: current_instruction_ is saved and
set to the visited instruction; the CanReplaceWithDummyUses branch is an
unimplemented stub; otherwise the instruction is dispatched to its
CompileToLLVM handler (the DoAdd arm is inlined here: representation
guard, representation DCHECKs, operands resolved through Use, CreateAdd,
set_llvm_value); finally current_instruction_ is restored. -/
def VisitInstruction (s : CState) (instr : HInstr) : Except Err CState :=
  let old_current := s.currentInstruction
  let s0 := { s with currentInstruction := some instr.data.id }
  let result : Except Err CState :=
    if instr.data.canReplaceDummy then
      -- both arms of the dummy-uses branch are UNIMPLEMENTED()
      .error .unimplemented
    else
      match instr with
      | .constant d intVal taggedIsSmi => DoConstant s0 d intVal taggedIsSmi
      | .add d left right =>
        -- LLVMChunkBuilder::DoAdd
        if d.rep = .integer32 ∨ d.rep = .smi then
          if left.data.rep = d.rep ∧ right.data.rep = d.rep then
            match Use s0 left with
            | .error e => .error e
            | .ok (s1, lv) =>
              match Use s1 right with
              | .error e => .error e
              | .ok (s2, rv) =>
                let (s3, v) := emitOp s2 (.addOp lv rv)
                .ok (setLLVMValue s3 d.id v)
          else
            .error .dcheckFailed
        else
          .error .unimplemented
      | .sub d left right => DoSub s0 d left right
      | .mul d left right => DoMul s0 d left right
  restoreCurrent old_current result
termination_by (sizeOf instr, 0)

end

/-! Theorems. -/

/-- Claim C2, counterexample: for block 1 whose single predecessor ends with
successors 1 (the block itself) and 2, only one successor id exceeds the
block id, so the claimed property same_storage = !(two_successors and
both_forward) predicts shared storage; DoBasicBlock nevertheless copies the
environment, because the source copies when either successor id exceeds
the block id. -/
theorem singlePred_sameStorage_counterexample :
    let pred : PredInfo := ⟨⟨0, [5]⟩, 7, 1, some 2⟩
    sameStorage (singlePredecessorEnv 1 pred).1 pred.lastEnvironment = false ∧
    (!(pred.secondSuccessorId.isSome &&
        (decide (pred.firstSuccessorId > 1) &&
         decide (pred.secondSuccessorId.getD 0 > 1)))) = true := by
  decide

/-- Claim C2 (amended): for every non-start block with exactly one
predecessor, the block's environment shares the predecessor's storage iff
it is not the case that the predecessor has two successors and at least
one successor block id exceeds the block's id; the predecessor's outgoing
argument count is carried over unchanged. -/
theorem singlePred_env_sharing (blockId : Nat) (pred : PredInfo) :
    sameStorage (singlePredecessorEnv blockId pred).1 pred.lastEnvironment
      = !(match pred.secondSuccessorId with
          | none => false
          | some s =>
            decide (pred.firstSuccessorId > blockId) || decide (s > blockId))
    ∧ (singlePredecessorEnv blockId pred).2 = pred.argumentCount := by
  obtain ⟨le, ac, f, ss⟩ := pred
  cases ss with
  | none => simp [singlePredecessorEnv, sameStorage]
  | some s =>
    refine ⟨?_, rfl⟩
    by_cases h1 : blockId < f <;> by_cases h2 : blockId < s <;>
      simp [singlePredecessorEnv, sameStorage, HEnvironment.copy, h1, h2]

/-- Claim C5, counterexample: the combinations (EQ, unsigned) and
(EQ, signed) are distinct yet yield the same predicate ICMP_EQ, so the 12
combinations do not yield 12 distinct predicates. -/
theorem tokenToPredicate_distinct_counterexample :
    TokenToPredicate Token.EQ true = some Predicate.ICMP_EQ ∧
    TokenToPredicate Token.EQ false = some Predicate.ICMP_EQ ∧
    (Token.EQ, true) ≠ ((Token.EQ, false) : Token × Bool) := by
  decide

/-- Claim C5 (amended): TokenToPredicate is total and non-error over the six
relational operators crossed with the signed/unsigned flag; for a fixed
flag the six operators yield six distinct predicates; EQ and NE ignore the
flag (so the 12 combinations yield 10 distinct predicates, not 12); IN and
INSTANCEOF are fatal (unreachable). -/
theorem tokenToPredicate_classification :
    (relationalTokens.all fun t =>
        (TokenToPredicate t true).isSome && (TokenToPredicate t false).isSome)
      = true ∧
    (relationalTokens.map fun t => TokenToPredicate t true).Nodup ∧
    (relationalTokens.map fun t => TokenToPredicate t false).Nodup ∧
    (relationalTokens.all fun t =>
        TokenToPredicate t true != some Predicate.BAD_FCMP_PREDICATE &&
        TokenToPredicate t false != some Predicate.BAD_FCMP_PREDICATE)
      = true ∧
    TokenToPredicate Token.EQ true = TokenToPredicate Token.EQ false ∧
    TokenToPredicate Token.NE true = TokenToPredicate Token.NE false ∧
    TokenToPredicate Token.IN true = none ∧
    TokenToPredicate Token.IN false = none ∧
    TokenToPredicate Token.INSTANCEOF true = none ∧
    TokenToPredicate Token.INSTANCEOF false = none := by
  decide

/-- Claim C6: under the wide-tagging configuration (SmiValuesAre32Bits),
converting a non-overflowing 32-bit integer to tagged form
(Integer32ToSmi, left shift by kSmiShift) and back (SmiToInteger32,
logical right shift by kSmiShift) reproduces the integer. -/
theorem smi_tagging_roundtrip (x : Nat) (h : x < 2 ^ 32) :
    SmiToInteger32 true (Integer32ToSmi x) = some x := by
  have h1 : x * 2 ^ 32 < 2 ^ 64 := by
    calc x * 2 ^ 32 < 2 ^ 32 * 2 ^ 32 :=
          Nat.mul_lt_mul_of_lt_of_le h (Nat.le_refl (2 ^ 32)) (by norm_num)
      _ = 2 ^ 64 := by norm_num
  show some (x * 2 ^ 32 % 2 ^ 64 / 2 ^ 32) = some x
  rw [Nat.mod_eq_of_lt h1, Nat.mul_div_cancel x (by norm_num)]

/-- Witness for smi_tagging_roundtrip at x = 5. -/
theorem smi_tagging_roundtrip_witness :
    (5 : Nat) < 2 ^ 32 ∧ SmiToInteger32 true (Integer32ToSmi 5) = some 5 :=
  ⟨by norm_num, smi_tagging_roundtrip 5 (by norm_num)⟩

/-- Claim C7: the representation-change matrix of DoChange.  Smi to tagged
passes the value through; tagged to Smi passes the value through (the
type check is elided); tagged to 32-bit integer emits the tagged-to-native
right shift for every value (no type check emitted); 32-bit integer to
tagged emits the native-to-tagged left shift when the producer cannot
overflow and is an unimplemented stub when it can; every transition among
{Smi, tagged, 32-bit integer, double} that involves double is an
unimplemented stub. -/
theorem doChange_matrix :
    (∀ t r c, DoChange .smi .tagged t r c = .useIdentity) ∧
    (∀ t r c, DoChange .tagged .smi t r c = .useIdentity) ∧
    (∀ t r c, DoChange .tagged .integer32 t r c = .smiToInt32) ∧
    (∀ t r, DoChange .integer32 .tagged t r false = .int32ToSmi) ∧
    (∀ t r, DoChange .integer32 .tagged t r true = .unimplementedStub) ∧
    (∀ t r c, DoChange .smi .double t r c = .unimplementedStub) ∧
    (∀ t r c, DoChange .tagged .double t r c = .unimplementedStub) ∧
    (∀ t r c, DoChange .integer32 .double t r c = .unimplementedStub) ∧
    (∀ toRep t r c, DoChange .double toRep t r c = .unimplementedStub) := by
  refine ⟨?_, ?_, ?_, ?_, ?_, ?_, ?_, ?_, ?_⟩ <;>
    first
      | (intro t r c; cases t <;> cases r <;> cases c <;> rfl)
      | (intro t r; cases t <;> cases r <;> rfl)
      | (intro toRep t r c; cases toRep <;> cases t <;> cases r <;> cases c <;> rfl)

/-- Claim C8: Build constructs the function signature with exactly
(declared parameter count + 3) parameters, all of the single 64-bit
integer type, with a 64-bit integer return type. -/
theorem build_function_signature (n : Nat) :
    (BuildFunctionType n).paramTypes.length = n + 3 ∧
    ((BuildFunctionType n).paramTypes.all fun t => t == LLVMType.int64)
      = true ∧
    (BuildFunctionType n).returnType = LLVMType.int64 := by
  refine ⟨by simp [BuildFunctionType], ?_, rfl⟩
  simp only [BuildFunctionType, List.all_eq_true, List.mem_replicate]
  intro t _
  cases t
  rfl

/-- Closed form of the DoParameter argument walk. -/
theorem paramLoop_closed (index nump : Int) :
    paramLoop index nump = (index + nump - 1).toNat := by
  induction index, nump using paramLoop.induct with
  | case1 index nump h ih =>
    rw [paramLoop, if_pos h, ih]
    omega
  | case2 index nump h =>
    rw [paramLoop, if_neg h]
    omega

/-- Claim C9: for every declared parameter index i < N, DoParameter binds
the instruction to the native argument at position N + 3 - 1 - i from
arg_begin (so parameter 0 maps to the last of the N + 3 arguments),
compensating for the hidden arguments the calling convention prepends. -/
theorem doParameter_arg_position (numDeclared i : Nat) (h : i < numDeclared) :
    DoParameterArgPosition numDeclared i = numDeclared + 3 - 1 - i := by
  unfold DoParameterArgPosition
  rw [paramLoop_closed]
  omega

/-- Witness for doParameter_arg_position at N = 2, i = 1. -/
theorem doParameter_arg_position_witness :
    1 < 2 ∧ DoParameterArgPosition 2 1 = 2 + 3 - 1 - 1 :=
  ⟨by decide, doParameter_arg_position 2 1 (by decide)⟩

/-- Once aborted, the instruction loop of a block does nothing further. -/
theorem doBlockInstructions_aborted (b : List AInstr) :
    doBlockInstructions Status.ABORTED b = Status.ABORTED := by
  induction b with
  | nil => rfl
  | cons i rest ih => simp [doBlockInstructions, ih]

/-- Starting from BUILDING, a block's instruction loop ends ABORTED iff the
block contains a visited instruction with an unimplemented handler. -/
theorem doBlockInstructions_building (b : List AInstr) :
    doBlockInstructions Status.BUILDING b
      = if blockAborts b then Status.ABORTED else Status.BUILDING := by
  induction b with
  | nil => rfl
  | cons i rest ih =>
    rcases i with ⟨ea, impl⟩
    cases ea <;> cases impl <;>
      simp [doBlockInstructions, blockAborts, visitOutcome, ih,
            doBlockInstructions_aborted, List.any_cons]

/-- The block loop of Build enters exactly the clean prefix plus the
aborting block, then stops with status ABORTED. -/
theorem buildBlocks_abort (pre : List (List AInstr)) (bad : List AInstr)
    (post : List (List AInstr))
    (hpre : ∀ b ∈ pre, blockAborts b = false) (hbad : blockAborts bad = true) :
    buildBlocks Status.BUILDING (pre ++ bad :: post)
      = (Status.ABORTED, pre.length + 1) := by
  induction pre with
  | nil => simp [buildBlocks, doBlockInstructions_building, hbad]
  | cons b rest ih =>
    have hb : blockAborts b = false := hpre b (by simp)
    have hrest : ∀ x ∈ rest, blockAborts x = false := fun x hx =>
      hpre x (by simp [hx])
    simp [buildBlocks, doBlockInstructions_building, hb, ih hrest]

/-- Claim C1: when some block's handler hits an unimplemented case, the
compilation unit's status becomes ABORTED, Build stops after that block
(processing only the clean prefix plus the aborting block) and returns
null, and NewChunk returns null instead of a chunk. -/
theorem build_aborts_on_unimplemented (pre : List (List AInstr))
    (bad : List AInstr) (post : List (List AInstr))
    (hpre : ∀ b ∈ pre, blockAborts b = false) (hbad : blockAborts bad = true) :
    Build (pre ++ bad :: post) = (none, Status.ABORTED, pre.length + 1) ∧
    NewChunk (pre ++ bad :: post) = none := by
  have h := buildBlocks_abort pre bad post hpre hbad
  exact ⟨by simp [Build, h], by simp [NewChunk, Build, h]⟩

/-- Witness for build_aborts_on_unimplemented: one clean block, then a block
with an unimplemented visited instruction, then one further block that is
never entered. -/
theorem build_aborts_on_unimplemented_witness :
    (∀ b ∈ [[AInstr.mk false true]], blockAborts b = false) ∧
    blockAborts [AInstr.mk false false] = true ∧
    Build [[AInstr.mk false true], [AInstr.mk false false], []]
      = (none, Status.ABORTED, 2) ∧
    NewChunk [[AInstr.mk false true], [AInstr.mk false false], []] = none := by
  have h := build_aborts_on_unimplemented [[AInstr.mk false true]]
    [AInstr.mk false false] [[]] (by decide) (by decide)
  exact ⟨by decide, by decide, by simpa using h.1, by simpa using h.2⟩

/-- Characterization of optional indexing after List.set. -/
theorem getElem_set_char (l : List Nat) (i j v : Nat) :
    (l.set i v)[j]? = if i = j ∧ i < l.length then some v else l[j]? := by
  rcases Nat.lt_or_ge j l.length with hj | hj
  · by_cases hij : i = j
    · subst hij
      simp [List.getElem?_set_eq_of_lt v hj, hj]
    · simp [List.getElem?_set_ne hij, hij]
  · have h1 : l[j]? = none := by simp [List.getElem?_eq_none hj]
    have h2 : (l.set i v)[j]? = none := by
      apply List.getElem?_eq_none
      simpa using hj
    by_cases hij : i = j
    · subst hij
      have hni : ¬ i < l.length := by omega
      simp [h1, h2, hni]
    · simp [h1, h2, hij]

/-- One step of the phi loop. -/
theorem phiFold_cons (p : HPhi) (rest : List HPhi) (e : HEnvironment) :
    phiFold (p :: rest) e
      = phiFold rest
          (match p.mergedIndex with
           | some mi => e.setValueAt mi p.valId
           | none => e) := rfl

/-- One step of the deleted-phi loop. -/
theorem deletedPhiFold_cons (u d : Nat) (rest : List Nat)
    (e : HEnvironment) :
    deletedPhiFold u (d :: rest) e
      = deletedPhiFold u rest
          (if d < e.values.length then e.setValueAt d u else e) := rfl

/-- The phi loop mutates in place: storage identity and slot count are
preserved. -/
theorem phiFold_storage_length (phis : List HPhi) (e : HEnvironment) :
    (phiFold phis e).storageId = e.storageId ∧
    (phiFold phis e).values.length = e.values.length := by
  induction phis generalizing e with
  | nil => exact ⟨rfl, rfl⟩
  | cons p rest ih =>
    rcases p with ⟨v, mi⟩
    cases mi with
    | none => simpa [phiFold, List.foldl_cons] using ih e
    | some m =>
      have := ih (e.setValueAt m v)
      simpa [phiFold, List.foldl_cons, HEnvironment.setValueAt] using this

/-- The deleted-phi loop mutates in place: storage identity and slot count
are preserved. -/
theorem deletedPhiFold_storage_length (u : Nat) (ds : List Nat)
    (e : HEnvironment) :
    (deletedPhiFold u ds e).storageId = e.storageId ∧
    (deletedPhiFold u ds e).values.length = e.values.length := by
  induction ds generalizing e with
  | nil => exact ⟨rfl, rfl⟩
  | cons d rest ih =>
    by_cases hd : d < e.values.length
    · have := ih (e.setValueAt d u)
      simpa [deletedPhiFold, List.foldl_cons, HEnvironment.setValueAt, hd]
        using this
    · simpa [deletedPhiFold, List.foldl_cons, hd] using ih e

/-- Slots without a corresponding phi are untouched by the phi loop. -/
theorem phiFold_untouched (phis : List HPhi) (e : HEnvironment) (i : Nat)
    (h : ∀ p ∈ phis, p.mergedIndex ≠ some i) :
    (phiFold phis e).values[i]? = e.values[i]? := by
  induction phis generalizing e with
  | nil => rfl
  | cons p rest ih =>
    rcases p with ⟨v, mi⟩
    have hrest : ∀ x ∈ rest, x.mergedIndex ≠ some i := fun x hx =>
      h x (List.mem_cons_of_mem _ hx)
    cases mi with
    | none => simpa [phiFold, List.foldl_cons] using ih e hrest
    | some m =>
      have hm : m ≠ i := by
        intro hmi
        exact h ⟨v, some m⟩ (List.mem_cons_self _ _) (by simp [hmi])
      rw [phiFold_cons]
      simp only [HPhi.mergedIndex, HPhi.valId]
      rw [ih (e.setValueAt m v) hrest]
      simp [HEnvironment.setValueAt, getElem_set_char, hm]

/-- A phi slot holds the phi value after the phi loop, provided the merged
indices are distinct. -/
theorem phiFold_hit (phis : List HPhi) (e : HEnvironment) (p : HPhi)
    (mi : Nat) (hnodup : (phis.filterMap HPhi.mergedIndex).Nodup)
    (hp : p ∈ phis) (hmi : p.mergedIndex = some mi)
    (hlt : mi < e.values.length) :
    (phiFold phis e).values[mi]? = some p.valId := by
  induction phis generalizing e with
  | nil => cases hp
  | cons q rest ih =>
    rcases List.mem_cons.mp hp with rfl | hp'
    · rcases p with ⟨v, pmi⟩
      simp only [HPhi.mergedIndex] at hmi
      subst hmi
      have hfm : (List.filterMap HPhi.mergedIndex (⟨v, some mi⟩ :: rest))
          = mi :: rest.filterMap HPhi.mergedIndex := by
        simp [List.filterMap_cons]
      rw [hfm] at hnodup
      have hnotin : ∀ x ∈ rest, x.mergedIndex ≠ some mi := by
        intro x hx hxmi
        have : mi ∈ rest.filterMap HPhi.mergedIndex :=
          List.mem_filterMap.mpr ⟨x, hx, hxmi⟩
        exact (List.nodup_cons.mp hnodup).1 this
      rw [phiFold_cons]
      simp only [HPhi.mergedIndex, HPhi.valId]
      rw [phiFold_untouched rest _ mi hnotin]
      simp [HEnvironment.setValueAt, getElem_set_char, hlt]
    · have hnodup' : (rest.filterMap HPhi.mergedIndex).Nodup := by
        rcases q with ⟨w, qmi⟩
        cases qmi with
        | none => simpa [List.filterMap_cons] using hnodup
        | some m =>
          simp only [List.filterMap_cons] at hnodup
          exact (List.nodup_cons.mp hnodup).2
      rcases q with ⟨w, qmi⟩
      cases qmi with
      | none =>
        rw [phiFold_cons]
        exact ih e hnodup' hp' hlt
      | some m =>
        rw [phiFold_cons]
        simp only [HPhi.mergedIndex, HPhi.valId]
        have hlt' : mi < (e.setValueAt m w).values.length := by
          simpa [HEnvironment.setValueAt] using hlt
        exact ih (e.setValueAt m w) hnodup' hp' hlt'

/-- Characterization of the deleted-phi loop: an in-range deleted slot reads
the undefined constant, every other slot is untouched. -/
theorem deletedPhiFold_char (u : Nat) (ds : List Nat) (e : HEnvironment)
    (i : Nat) :
    (deletedPhiFold u ds e).values[i]? =
      if i ∈ ds ∧ i < e.values.length then some u else e.values[i]? := by
  induction ds generalizing e with
  | nil => simp [deletedPhiFold]
  | cons d rest ih =>
    rw [deletedPhiFold_cons]
    by_cases hd : d < e.values.length
    · rw [if_pos hd]
      rw [ih]
      simp only [HEnvironment.setValueAt, List.length_set]
      rw [getElem_set_char]
      by_cases h1 : i ∈ rest <;> by_cases h2 : i < e.values.length <;>
        by_cases h3 : d = i
      all_goals try (exfalso; omega)
      all_goals try (simp_all [List.mem_cons]; done)
      all_goals simp [h1, h3, Ne.symm h3, List.mem_cons]
    · rw [if_neg hd]
      rw [ih]
      by_cases h3 : d = i
      · subst h3
        have hnd : ¬ d < e.values.length := hd
        simp [List.mem_cons, hnd]
      · simp [List.mem_cons, Ne.symm h3]

/-- Claim C3: for a join block (more than one predecessor), DoBasicBlock
takes the first predecessor's final environment as the base without
copying (storage identity preserved), overwrites every slot that has a
corresponding phi with that phi's value, overwrites every in-range
deleted-phi slot with the canonical undefined constant, leaves all other
slots at the first predecessor's values, and sets the outgoing argument
count to the first predecessor's argument count.  Distinctness of the
merged phi indices and their disjointness from the deleted-phi list are
frontend invariants assumed here. -/
theorem join_block_env (startEnv : HEnvironment) (undefinedId blockId : Nat)
    (p q : PredInfo) (rest : List PredInfo) (phis : List HPhi)
    (deleted : List Nat)
    (hnodup : (phis.filterMap HPhi.mergedIndex).Nodup)
    (hdisj : ∀ m ∈ phis.filterMap HPhi.mergedIndex, m ∉ deleted) :
    DoBasicBlockEnv startEnv undefinedId blockId false (p :: q :: rest)
        phis deleted
      = some (joinBlockEnv undefinedId phis deleted p) ∧
    (joinBlockEnv undefinedId phis deleted p).1.storageId
      = p.lastEnvironment.storageId ∧
    (joinBlockEnv undefinedId phis deleted p).2 = p.argumentCount ∧
    (∀ phi ∈ phis, ∀ mi, phi.mergedIndex = some mi →
       mi < p.lastEnvironment.values.length →
       (joinBlockEnv undefinedId phis deleted p).1.values[mi]?
         = some phi.valId) ∧
    (∀ d ∈ deleted, d < p.lastEnvironment.values.length →
       (joinBlockEnv undefinedId phis deleted p).1.values[d]?
         = some undefinedId) ∧
    (∀ i, (∀ phi ∈ phis, phi.mergedIndex ≠ some i) → i ∉ deleted →
       (joinBlockEnv undefinedId phis deleted p).1.values[i]?
         = p.lastEnvironment.values[i]?) := by
  refine ⟨rfl, ?_, rfl, ?_, ?_, ?_⟩
  · have h1 := deletedPhiFold_storage_length undefinedId deleted
      (phiFold phis p.lastEnvironment)
    have h2 := phiFold_storage_length phis p.lastEnvironment
    simp [joinBlockEnv, h1.1, h2.1]
  · intro phi hphi mi hmi hlt
    have hmem : mi ∈ phis.filterMap HPhi.mergedIndex :=
      List.mem_filterMap.mpr ⟨phi, hphi, hmi⟩
    have hnot : mi ∉ deleted := hdisj mi hmem
    show (deletedPhiFold undefinedId deleted
        (phiFold phis p.lastEnvironment)).values[mi]? = some phi.valId
    rw [deletedPhiFold_char]
    rw [if_neg (by exact fun h => hnot h.1)]
    exact phiFold_hit phis p.lastEnvironment phi mi hnodup hphi hmi hlt
  · intro d hd hlt
    show (deletedPhiFold undefinedId deleted
        (phiFold phis p.lastEnvironment)).values[d]? = some undefinedId
    rw [deletedPhiFold_char]
    have hlen := (phiFold_storage_length phis p.lastEnvironment).2
    rw [if_pos ⟨hd, by omega⟩]
  · intro i hphi hdel
    show (deletedPhiFold undefinedId deleted
        (phiFold phis p.lastEnvironment)).values[i]?
      = p.lastEnvironment.values[i]?
    rw [deletedPhiFold_char]
    rw [if_neg (by exact fun h => hdel h.1)]
    exact phiFold_untouched phis p.lastEnvironment i hphi

/-- Witness for join_block_env: first predecessor environment [10, 11, 12]
(storage id 0, argument count 4), one phi with value 77 merged at slot 0,
slot 1 deleted; the merged environment is [77, undefined, 12] on the same
storage. -/
theorem join_block_env_witness :
    ((([⟨77, some 0⟩] : List HPhi).filterMap HPhi.mergedIndex).Nodup) ∧
    (∀ m ∈ (([⟨77, some 0⟩] : List HPhi).filterMap HPhi.mergedIndex),
       m ∉ ([1] : List Nat)) ∧
    (joinBlockEnv 99 [⟨77, some 0⟩] [1]
        ⟨⟨0, [10, 11, 12]⟩, 4, 0, none⟩).1.values[0]? = some 77 ∧
    (joinBlockEnv 99 [⟨77, some 0⟩] [1]
        ⟨⟨0, [10, 11, 12]⟩, 4, 0, none⟩).1.values[1]? = some 99 ∧
    (joinBlockEnv 99 [⟨77, some 0⟩] [1]
        ⟨⟨0, [10, 11, 12]⟩, 4, 0, none⟩).1.values[2]?
      = (⟨0, [10, 11, 12]⟩ : HEnvironment).values[2]? := by
  have h := join_block_env ⟨5, []⟩ 99 3 ⟨⟨0, [10, 11, 12]⟩, 4, 0, none⟩
    ⟨⟨9, []⟩, 0, 0, none⟩ [] [⟨77, some 0⟩] [1] (by decide) (by decide)
  refine ⟨by decide, by decide, ?_, ?_, ?_⟩
  · exact h.2.2.2.1 ⟨77, some 0⟩ (by simp) 0 rfl (by decide)
  · exact h.2.2.2.2.1 1 (by simp) (by decide)
  · exact h.2.2.2.2.2 2 (by decide) (by decide)

/-- Reduction of HInstr.data on each constructor. -/
theorem HInstr.data_constant (d : HInstrData) (v : Int) (b : Bool) :
    (HInstr.constant d v b).data = d := rfl

/-- Reduction of HInstr.data on add. -/
theorem HInstr.data_add (d : HInstrData) (l r : HInstr) :
    (HInstr.add d l r).data = d := rfl

/-- Reduction of HInstr.data on sub. -/
theorem HInstr.data_sub (d : HInstrData) (l r : HInstr) :
    (HInstr.sub d l r).data = d := rfl

/-- Reduction of HInstr.data on mul. -/
theorem HInstr.data_mul (d : HInstrData) (l r : HInstr) :
    (HInstr.mul d l r).data = d := rfl

/-- Restoration lemma: a successful restoreCurrent leaves
current_instruction_ at the saved value. -/
theorem restoreCurrent_ok (old : Option Nat) (x : Except Err CState)
    (s' : CState) (h : restoreCurrent old x = .ok s') :
    s'.currentInstruction = old := by
  cases x with
  | error e => simp [restoreCurrent] at h
  | ok s2 =>
    simp only [restoreCurrent, Except.ok.injEq] at h
    subst h
    rfl

/-- Claim C10: VisitInstruction saves current_instruction_ on entry and
restores it on exit, so after any completed visit — including recursive
visits triggered through Use — the builder's current-instruction pointer
is exactly what it was before the visit. -/
theorem visitInstruction_restores_current (s : CState) (i : HInstr)
    (s' : CState) (h : VisitInstruction s i = .ok s') :
    s'.currentInstruction = s.currentInstruction := by
  rw [VisitInstruction.eq_def] at h
  exact restoreCurrent_ok _ _ _ h

/-- Witness for visitInstruction_restores_current: visiting an Integer32
constant restores current_instruction_ to its prior value. -/
theorem visitInstruction_restores_current_witness :
    VisitInstruction ⟨[], [], 0, some 99⟩
        (.constant ⟨1, .integer32, false, false⟩ 5 false)
      = .ok ⟨[(1, .imm 5)], [], 0, some 99⟩ ∧
    (⟨[(1, .imm 5)], [], 0, some 99⟩ : CState).currentInstruction
      = (⟨[], [], 0, some 99⟩ : CState).currentInstruction := by
  have hv : VisitInstruction ⟨[], [], 0, some 99⟩
      (.constant ⟨1, .integer32, false, false⟩ 5 false)
      = .ok ⟨[(1, .imm 5)], [], 0, some 99⟩ := by
    simp [VisitInstruction, restoreCurrent, DoConstant, HInstr.data_constant, setLLVMValue]
  exact ⟨hv, visitInstruction_restores_current _ _ _ hv⟩

/-- Claim C4, counterexample: with identical emit-at-use constant operands
that have no memoized value yet, the addition handler resolves them
through Use (recursively materializing them) and succeeds, while the
subtraction and multiplication handlers fail their CHECK on the missing
llvm_value instead of resolving the operands through the materialization
cache — so they do not follow the claimed uniform Use-based shape. -/
theorem arith_handler_use_counterexample :
    let l : HInstr := .constant ⟨1, .integer32, true, false⟩ 5 false
    let r : HInstr := .constant ⟨2, .integer32, true, false⟩ 7 false
    let s0 : CState := ⟨[], [], 0, none⟩
    VisitInstruction s0 (.add ⟨10, .integer32, false, false⟩ l r)
      = .ok ⟨[(10, .reg 0), (2, .imm 7), (1, .imm 5)],
             [.addOp (.imm 5) (.imm 7)], 1, none⟩ ∧
    VisitInstruction s0 (.sub ⟨10, .integer32, false, false⟩ l r)
      = .error .checkFailed ∧
    VisitInstruction s0 (.mul ⟨10, .integer32, false, false⟩ l r)
      = .error .checkFailed := by
  refine ⟨?_, ?_, ?_⟩ <;>
    simp [VisitInstruction, restoreCurrent, Use, DoConstant, DoSub, DoMul,
          HInstr.data_constant, HInstr.data_add, HInstr.data_sub,
          HInstr.data_mul, setLLVMValue, emitOp, memoLookup]

/-- Claim C4 (amended): the handlers assert operand representations, emit
the operation and memoize the result, but only addition resolves its
operands through the materialization cache (Use), recursively
materializing emit-at-use operands with no value; subtraction and
multiplication read the operands' already-memoized values directly and
fail a CHECK when a value is absent, and all three are unimplemented
stubs for non-integer/Smi representations. -/
theorem arith_handler_shape :
    (∀ (s : CState) (dA d1 d2 : HInstrData) (v1 v2 : Int) (b1 b2 : Bool),
       dA.rep = .integer32 → dA.canReplaceDummy = false →
       d1.rep = .integer32 → d2.rep = .integer32 →
       d1.emitAtUses = true → d2.emitAtUses = true →
       d1.canReplaceDummy = false → d2.canReplaceDummy = false →
       memoLookup s.memo d1.id = none → memoLookup s.memo d2.id = none →
       d1.id ≠ d2.id →
       VisitInstruction s
           (.add dA (.constant d1 v1 b1) (.constant d2 v2 b2))
         = .ok ⟨(dA.id, .reg s.fresh) :: (d2.id, .imm v2)
                  :: (d1.id, .imm v1) :: s.memo,
                s.emitted ++ [.addOp (.imm v1) (.imm v2)], s.fresh + 1,
                s.currentInstruction⟩) ∧
    (∀ (s : CState) (dA : HInstrData) (l r : HInstr),
       dA.rep = .integer32 → dA.canReplaceDummy = false →
       l.data.rep = .integer32 → r.data.rep = .integer32 →
       memoLookup s.memo l.data.id = none →
       VisitInstruction s (.sub dA l r) = .error .checkFailed ∧
       VisitInstruction s (.mul dA l r) = .error .checkFailed) ∧
    (∀ (s : CState) (dA : HInstrData) (l r : HInstr) (lv rv : LVal),
       dA.rep = .integer32 → dA.canReplaceDummy = false →
       l.data.rep = .integer32 → r.data.rep = .integer32 →
       memoLookup s.memo l.data.id = some lv →
       memoLookup s.memo r.data.id = some rv →
       VisitInstruction s (.sub dA l r)
         = .ok ⟨(dA.id, .reg s.fresh) :: s.memo,
                s.emitted ++ [.subOp lv rv], s.fresh + 1,
                s.currentInstruction⟩ ∧
       VisitInstruction s (.mul dA l r)
         = .ok ⟨(dA.id, .reg s.fresh) :: s.memo,
                s.emitted ++ [.mulOp lv rv], s.fresh + 1,
                s.currentInstruction⟩) ∧
    (∀ (s : CState) (dA : HInstrData) (l r : HInstr),
       dA.rep = .double → dA.canReplaceDummy = false →
       VisitInstruction s (.add dA l r) = .error .unimplemented ∧
       VisitInstruction s (.sub dA l r) = .error .unimplemented ∧
       VisitInstruction s (.mul dA l r) = .error .unimplemented) := by
  refine ⟨?_, ?_, ?_, ?_⟩
  · intro s dA d1 d2 v1 v2 b1 b2 hA hAd h1 h2 he1 he2 hc1 hc2 hm1 hm2 hne
    simp [VisitInstruction, restoreCurrent, Use, DoConstant,
          HInstr.data_constant, HInstr.data_add, setLLVMValue, emitOp,
          memoLookup, hA, hAd, h1, h2, he1, he2, hc1, hc2, hm1, hm2, hne]
  · intro s dA l r hA hAd hl hr hm
    constructor <;>
      simp [VisitInstruction, restoreCurrent, DoSub, DoMul,
            HInstr.data_sub, HInstr.data_mul, hA, hAd, hl, hr, hm]
  · intro s dA l r lv rv hA hAd hl hr hml hmr
    constructor <;>
      simp [VisitInstruction, restoreCurrent, DoSub, DoMul,
            HInstr.data_sub, HInstr.data_mul, setLLVMValue, emitOp, hA,
            hAd, hl, hr, hml, hmr]
  · intro s dA l r hA hAd
    refine ⟨?_, ?_, ?_⟩ <;>
      simp [VisitInstruction, restoreCurrent, DoSub, DoMul,
            HInstr.data_add, HInstr.data_sub, HInstr.data_mul, hA, hAd]

/-- Witness for arith_handler_shape: the addition conjunct applied to two
fresh emit-at-use Integer32 constants. -/
theorem arith_handler_shape_witness :
    memoLookup ([] : List (Nat × LVal)) 1 = none ∧
    (1 : Nat) ≠ 2 ∧
    VisitInstruction ⟨[], [], 0, none⟩
        (.add ⟨10, .integer32, false, false⟩
          (.constant ⟨1, .integer32, true, false⟩ 5 false)
          (.constant ⟨2, .integer32, true, false⟩ 7 false))
      = .ok ⟨[(10, .reg 0), (2, .imm 7), (1, .imm 5)],
             [.addOp (.imm 5) (.imm 7)], 1, none⟩ := by
  refine ⟨rfl, by decide, ?_⟩
  have h := arith_handler_shape.1 ⟨[], [], 0, none⟩
    ⟨10, .integer32, false, false⟩ ⟨1, .integer32, true, false⟩
    ⟨2, .integer32, true, false⟩ 5 7 false false
    rfl rfl rfl rfl rfl rfl rfl rfl rfl rfl (by decide)
  simpa using h

end LLV8
